import Mathlib

/-!
Verification development for the SegmentR grounded-segmentation pipeline.

The repository composes an open-vocabulary detector and a promptable mask
generator.  The core under verification is the detection-to-mask bridging
code: `detect` (rseg detection adapter), `get_boxes`, `refine_masks`,
`mask_to_polygon`, `polygon_to_mask` (rseg/utils.py), `segment`
(rseg/segmentation.py), `annotate` (rseg/visualization.py), and the JSON
serialization loop of main.py.

Modelling conventions:
* numpy/torch tensors become dimension-carrying structures over ℚ with a
  total indexing function (out-of-range indices are irrelevant: every
  theorem only looks below the recorded bounds);
* external capabilities (the detector pipeline, the SAM processor/model,
  and the cv2 drawing/contour primitives) are parameters of the embedded
  functions; their documented contracts appear as explicit hypotheses;
* a Python exception (the `ValueError` from `max()` on an empty contour
  sequence, the `IndexError` of `[0]` on an empty list) is `Option.none`;
* in-place mutation (`detection_result.mask = ...`, cv2 drawing into a
  buffer) is modelled with explicit heaps `ℕ → α` indexed by object ids.
-/

namespace Rseg

/-- Pixel buffer: height times width RGB image (rseg/utils.py `load_image`
produces an RGB `PIL.Image`; the pipeline only threads it through). -/
structure Image where
  h : ℕ
  w : ℕ
  pix : ℕ → ℕ → ℕ × ℕ × ℕ

/-- A 2-D uint8 array as produced by `refine_masks` / `polygon_to_mask`
(values are small naturals: 0/1 after reduction, 0/255 after `fillPoly`). -/
structure Mask where
  h : ℕ
  w : ℕ
  val : ℕ → ℕ → ℕ

/-- BoundingBox dataclass of rseg/utils.py: four integer pixel coordinates. -/
structure BoundingBox where
  xmin : ℤ
  ymin : ℤ
  xmax : ℤ
  ymax : ℤ
deriving DecidableEq

/-- Property `xyxy` of `BoundingBox`: the ordered 4-tuple view
`[self.xmin, self.ymin, self.xmax, self.ymax]` (the values are the stored
integers; the Python `List[float]` annotation is not a conversion). -/
def BoundingBox.xyxy (b : BoundingBox) : List ℤ :=
  [b.xmin, b.ymin, b.xmax, b.ymax]

/-- DetectionResult dataclass of rseg/utils.py; `mask` defaults to `None`. -/
structure DetectionResult where
  score : ℚ
  label : String
  box : BoundingBox
  mask : Option Mask := none

/-- Raw box dict returned by the external zero-shot detection pipeline. -/
structure RawBox where
  xmin : ℤ
  ymin : ℤ
  xmax : ℤ
  ymax : ℤ
deriving DecidableEq

/-- Raw detection dict `{score, label, box}` returned by the external
zero-shot object-detection pipeline. -/
structure RawDetection where
  score : ℚ
  label : String
  box : RawBox
deriving DecidableEq

/-- Classmethod `DetectionResult.from_dict` of rseg/utils.py. -/
def DetectionResult.from_dict (d : RawDetection) : DetectionResult :=
  { score := d.score
    label := d.label
    box := { xmin := d.box.xmin, ymin := d.box.ymin
             xmax := d.box.xmax, ymax := d.box.ymax } }

/-- Python `label.endswith(".")`: for the one-character suffix this is
exactly the test that the final character is a period. -/
def endsWithDot (s : String) : Bool :=
  match s.data.getLast? with
  | some c => c = '.'
  | none => false

/-- Function `detect` of the detection adapter (detection.py and
rsegcol/detection.py; the rseg package variant imported by main.py is
byte-identical in the lines modelled here).  The external
`zero-shot-object-detection` pipeline is the parameter `object_detector`.
Every label is suffixed with a trailing period when it does not already end
in one, the suffixed list is handed to the detector, and the detector's raw
dicts are converted with `DetectionResult.from_dict` — no period is ever
removed from the returned labels. -/
def detect (object_detector : Image → List String → ℚ → List RawDetection)
    (image : Image) (labels : List String) (threshold : ℚ) :
    List DetectionResult :=
  let labels2 := labels.map (fun label =>
    if endsWithDot label then label else label ++ ".")
  let results := object_detector image labels2 threshold
  results.map DetectionResult.from_dict

/-- Function `get_boxes` of rseg/utils.py: a loop appending each result's
`box.xyxy` to an accumulator, then wrapping the accumulator in a
single-element outer list. -/
def get_boxes (results : List DetectionResult) : List (List (List ℤ)) :=
  let boxes := results.foldl (fun acc result => acc ++ [result.box.xyxy]) []
  [boxes]

/-- A rank-4 tensor (torch) with explicit dimensions `d0 d1 d2 d3` and a
total indexing function. -/
structure Tensor4 where
  d0 : ℕ
  d1 : ℕ
  d2 : ℕ
  d3 : ℕ
  val : ℕ → ℕ → ℕ → ℕ → ℚ

/-- A rank-3 tensor with rational entries. -/
structure Tensor3 where
  d0 : ℕ
  d1 : ℕ
  d2 : ℕ
  val : ℕ → ℕ → ℕ → ℚ

/-- A rank-3 tensor with natural (uint8-valued) entries. -/
structure NTensor3 where
  d0 : ℕ
  d1 : ℕ
  d2 : ℕ
  val : ℕ → ℕ → ℕ → ℕ

/-- torch `masks.permute(0, 2, 3, 1)`: dimension reordering
(boxes, channels, H, W) → (boxes, H, W, channels). -/
def Tensor4.permute0231 (t : Tensor4) : Tensor4 :=
  { d0 := t.d0, d1 := t.d2, d2 := t.d3, d3 := t.d1
    val := fun a b c d => t.val a d b c }

/-- torch `masks.mean(axis=-1)`: per-entry mean across the last axis. -/
def Tensor4.meanLast (t : Tensor4) : Tensor3 :=
  { d0 := t.d0, d1 := t.d1, d2 := t.d2
    val := fun a b c =>
      (((List.range t.d3).map (fun i => t.val a b c i)).sum) / (t.d3 : ℚ) }

/-- torch `(masks > 0).int()` followed by `.numpy().astype(np.uint8)`:
strict thresholding to the 8-bit values 0/1. -/
def Tensor3.gtZeroUint8 (t : Tensor3) : NTensor3 :=
  { d0 := t.d0, d1 := t.d1, d2 := t.d2
    val := fun a b c => if t.val a b c > 0 then 1 else 0 }

/-- Python `list(masks)`: split the leading axis into a list of 2-D arrays. -/
def NTensor3.toMaskList (t : NTensor3) : List Mask :=
  (List.range t.d0).map (fun b =>
    { h := t.d1, w := t.d2, val := fun y x => t.val b y x })

/-- Lines 64-69 of rseg/utils.py `refine_masks`: the reduction of the raw
(num_boxes, channels, H, W) tensor to one uint8 mask per box.  The leading
`.cpu().float()` is the identity on the modelled rational entries. -/
def reduceMasks (t : Tensor4) : List Mask :=
  ((t.permute0231).meanLast).gtZeroUint8.toMaskList

/-- Polygons and contours: ordered integer (x, y) vertex lists, the shape
cv2 contours take after `reshape(-1, 2).tolist()`. -/
abbrev Polygon : Type := List (ℤ × ℤ)

/-- Function `mask_to_polygon` of rseg/utils.py.  `cv2.findContours`
(`findContours` parameter) and `cv2.contourArea` (`contourArea` parameter)
are external cv2 primitives.  Python `max(contours, key=cv2.contourArea)`
returns the first contour of maximal area and raises `ValueError` on an
empty sequence — the raise is `none`. -/
def mask_to_polygon (findContours : Mask → List Polygon)
    (contourArea : Polygon → ℚ) (mask : Mask) : Option Polygon :=
  match findContours mask with
  | [] => none
  | c :: cs => some (cs.foldl
      (fun best x => if contourArea x > contourArea best then x else best) c)

/-- A fresh all-zero uint8 array `np.zeros(image_shape, dtype=np.uint8)`. -/
def zerosMask (shape : ℕ × ℕ) : Mask :=
  { h := shape.1, w := shape.2, val := fun _ _ => 0 }

/-- Function `polygon_to_mask` of rseg/utils.py: allocate an all-zero mask
of the given shape and fill the polygon with `cv2.fillPoly(color=(255,))`
(`fillPoly` parameter: the external cv2 rasterizer acting on the buffer). -/
def polygon_to_mask (fillPoly : Mask → Polygon → Mask)
    (polygon : Polygon) (image_shape : ℕ × ℕ) : Mask :=
  fillPoly (zerosMask image_shape) polygon

/-- The `for idx, mask in enumerate(masks)` refinement loop of
`refine_masks` (lines 71-76 of rseg/utils.py): each mask is replaced by the
rasterization of its largest contour; an exception from `mask_to_polygon`
propagates and aborts the whole loop. -/
def refinePass (findContours : Mask → List Polygon) (contourArea : Polygon → ℚ)
    (fillPoly : Mask → Polygon → Mask) : List Mask → Option (List Mask)
  | [] => some []
  | m :: ms =>
    match mask_to_polygon findContours contourArea m with
    | none => none
    | some p =>
      (refinePass findContours contourArea fillPoly ms).map
        (fun rest => polygon_to_mask fillPoly p (m.h, m.w) :: rest)

/-- Function `refine_masks` of rseg/utils.py: tensor reduction followed by
the optional polygon-refinement loop. -/
def refine_masks (findContours : Mask → List Polygon)
    (contourArea : Polygon → ℚ) (fillPoly : Mask → Polygon → Mask)
    (masks : Tensor4) (polygon_refinement : Bool) : Option (List Mask) :=
  let reduced := reduceMasks masks
  if polygon_refinement then
    refinePass findContours contourArea fillPoly reduced
  else
    some reduced

/-- The `pixel_values` tensor produced by the SAM processor: only its
spatial shape and entries matter to the modelled code (`shape[-2:]`). -/
structure PixTensor where
  h : ℕ
  w : ℕ
  val : ℕ → ℕ → ℚ

/-- External SAM collaborators used by `segment` (rseg/segmentation.py):
the `AutoProcessor` preprocessing call (with its `do_resize` switch), the
`AutoModelForMaskGeneration` forward pass producing `pred_masks`, and the
processor's `post_process_masks`.  All three are opaque capabilities; the
theorems state their documented contracts as explicit hypotheses. -/
structure SegBackend where
  preprocess : Image → List (List (List ℤ)) → Bool → PixTensor
  model : PixTensor → List (List (List ℤ)) → Tensor4
  postProcessMasks : Tensor4 → List (ℕ × ℕ) → List (ℕ × ℕ) → List Tensor4

/-- The `for detection_result, mask in zip(detection_results, masks)` loop
of `segment`: assign masks positionally; `zip` truncates at the shorter
list, and entries beyond it keep their previous `mask` field. -/
def assignMasks : List DetectionResult → List Mask → List DetectionResult
  | [], _ => []
  | ds, [] => ds
  | d :: ds, m :: ms => { d with mask := some m } :: assignMasks ds ms

/-- Function `segment` of rseg/segmentation.py (lines 19-46): extract the
box prompts, preprocess once with `do_resize=False` to observe the original
size, preprocess again with default settings, run the mask generator, read
the reshaped size off the tensor actually fed to it, post-process with both
sizes, reduce/refine, and assign the masks positionally.  The `[0]` index
into the post-processing result is an `IndexError` (hence `none`) on an
empty batch; an exception inside `refine_masks` also propagates. -/
def segment (B : SegBackend) (findContours : Mask → List Polygon)
    (contourArea : Polygon → ℚ) (fillPoly : Mask → Polygon → Mask)
    (image : Image) (detection_results : List DetectionResult)
    (polygon_refinement : Bool) : Option (List DetectionResult) :=
  let boxes := get_boxes detection_results
  let inputsNoResize := B.preprocess image boxes false
  let originalSize := (inputsNoResize.h, inputsNoResize.w)
  let inputs := B.preprocess image boxes true
  let outputs := B.model inputs boxes
  let reshapedSize := (inputs.h, inputs.w)
  match B.postProcessMasks outputs [originalSize] [reshapedSize] with
  | [] => none
  | t :: _ =>
    match refine_masks findContours contourArea fillPoly t
        polygon_refinement with
    | none => none
    | some masks => some (assignMasks detection_results masks)

/-- Reference-level view of `segment`: the caller's Python list is a heap
cell (`heap ref`); `segment` mutates the cell's contents through the
positional `detection_result.mask = mask` assignments and returns the very
same reference. -/
def segmentRef (B : SegBackend) (findContours : Mask → List Polygon)
    (contourArea : Polygon → ℚ) (fillPoly : Mask → Polygon → Mask)
    (heap : ℕ → List DetectionResult) (ref : ℕ) (image : Image)
    (polygon_refinement : Bool) :
    Option ((ℕ → List DetectionResult) × ℕ) :=
  (segment B findContours contourArea fillPoly image (heap ref)
      polygon_refinement).map
    (fun out => (Function.update heap ref out, ref))

/-- Contract of `AutoProcessor.post_process_masks`: for a batch of one
image it remaps every mask of the batch item onto the supplied original
size. -/
def SegBackend.PostShapeOk (B : SegBackend) : Prop :=
  ∀ raw os rs, ∀ t ∈ B.postProcessMasks raw [os] [rs],
    t.d2 = os.1 ∧ t.d3 = os.2

/-- Contract of `AutoProcessor.post_process_masks`: the per-box leading
dimension of each batch item matches the raw model output. -/
def SegBackend.PostCountOk (B : SegBackend) : Prop :=
  ∀ raw oss rss, ∀ t ∈ B.postProcessMasks raw oss rss, t.d0 = raw.d0

/-- Contract of the mask-generation model: `pred_masks` carries one mask
stack per input box of the single batch image. -/
def SegBackend.ModelCountOk (B : SegBackend) : Prop :=
  ∀ pv bxs, (B.model pv bxs).d0 = (bxs.headD []).length

/-- Contract of the SAM processor with `do_resize=False`: the pixel tensor
keeps the decoded image's spatial dimensions (this is precisely why
`segment` preprocesses once with resizing disabled to observe the original
size). -/
def SegBackend.NoResizeOk (B : SegBackend) : Prop :=
  ∀ img bxs, (B.preprocess img bxs false).h = img.h ∧
    (B.preprocess img bxs false).w = img.w

/-- Contract of `cv2.fillPoly`: it draws into the supplied buffer, so the
result keeps the buffer's dimensions. -/
def FillShapeOk (fillPoly : Mask → Polygon → Mask) : Prop :=
  ∀ m p, (fillPoly m p).h = m.h ∧ (fillPoly m p).w = m.w

/-- Contract of `cv2.fillPoly(color=(255,))`: every pixel of the result
either kept its previous value or was painted 255. -/
def FillValueOk (fillPoly : Mask → Polygon → Mask) : Prop :=
  ∀ m p y x, (fillPoly m p).val y x = m.val y x ∨ (fillPoly m p).val y x = 255

/-- numpy `mask.tolist()`: the nested row-major list of the array entries. -/
def Mask.tolist (m : Mask) : List (List ℕ) :=
  (List.range m.h).map (fun y => (List.range m.w).map (fun x => m.val y x))

/-- Number of nonzero (foreground) pixels of a mask. -/
def Mask.foreground (m : Mask) : ℕ :=
  ((m.tolist).map (fun row => (row.filter (fun v => v ≠ 0)).length)).sum

/-- One element of the `detections_dict` list built in main.py lines 66-73:
`{"label": d.label, "score": d.score, "box": d.box.__dict__,
"mask": d.mask.tolist() if d.mask is not None else None}`. -/
structure DetectionJson where
  label : String
  score : ℚ
  box : BoundingBox
  mask : Option (List (List ℕ))
deriving DecidableEq

/-- The serialization comprehension of main.py (lines 66-73). -/
def detectionsDict (results : List DetectionResult) : List DetectionJson :=
  results.map (fun d =>
    { label := d.label, score := d.score, box := d.box
      mask := d.mask.map Mask.tolist })

/-- numpy `(mask * 255).astype(np.uint8)` in `annotate`
(rseg/visualization.py line 27); uint8 arithmetic wraps modulo 256. -/
def Mask.times255 (m : Mask) : Mask :=
  { h := m.h, w := m.w, val := fun y x => (m.val y x * 255) % 256 }

/-- External cv2 primitives used by `annotate` (rseg/visualization.py).
Each drawing call mutates a pixel buffer in place; value-level they are
buffer transformers.  `fmtFloat` is Python's `{score:.2f}` formatting. -/
structure Cv2 where
  cvtColorRGB2BGR : Image → Image
  cvtColorBGR2RGB : Image → Image
  rectangle : Image → (ℤ × ℤ) → (ℤ × ℤ) → List ℕ → Image
  putText : Image → String → (ℤ × ℤ) → List ℕ → Image
  findContours : Mask → List Polygon
  drawContours : Image → List Polygon → List ℕ → Image
  fmtFloat : ℚ → String

/-- The per-detection drawing loop of `annotate` (rseg/visualization.py
lines 15-29), folded over the working buffer `image_cv2`.  `colors k` is
the `np.random.randint(0, 256, size=3).tolist()` draw for the k-th
detection (randomness modelled as an external color stream). -/
def drawDetections (cv : Cv2) (colors : ℕ → List ℕ) :
    Image → List DetectionResult → ℕ → Image
  | buf, [], _ => buf
  | buf, d :: ds, k =>
    let color := colors k
    let buf1 := cv.rectangle buf (d.box.xmin, d.box.ymin)
      (d.box.xmax, d.box.ymax) color
    let buf2 := cv.putText buf1 (d.label ++ ": " ++ cv.fmtFloat d.score)
      (d.box.xmin, d.box.ymin - 10) color
    let buf3 :=
      match d.mask with
      | none => buf2
      | some m => cv.drawContours buf2 (cv.findContours m.times255) color
    drawDetections cv colors buf3 ds (k + 1)

/-- Function `annotate` of rseg/visualization.py, at reference level.  The
input image lives in heap cell `iid`.  Line 12 either copies a PIL image or
aliases an ndarray input, but line 13 immediately rebinds `image_cv2` to
the fresh buffer allocated by `cv2.cvtColor`, modelled as cell `nid`; every
drawing call then writes only that fresh buffer, and line 31 returns yet
another fresh buffer from the closing `cvtColor`.  The result is the final
heap together with the returned buffer value. -/
def annotateRef (cv : Cv2) (colors : ℕ → List ℕ) (heap : ℕ → Image)
    (iid nid : ℕ) (detection_results : List DetectionResult) :
    (ℕ → Image) × Image :=
  let buf0 := cv.cvtColorRGB2BGR (heap iid)
  let bufN := drawDetections cv colors buf0 detection_results 0
  (Function.update heap nid bufN, cv.cvtColorBGR2RGB bufN)

/-! Concrete instantiations of the external collaborators, used to
exercise the theorems on closed inputs.  Each one realizes the documented
behaviour of the corresponding external capability on the concrete data it
is applied to. -/

/-- A concrete 2 by 2 black image. -/
def img0 : Image := { h := 2, w := 2, pix := fun _ _ => (0, 0, 0) }

/-- A concrete external zero-shot detection pipeline: it reports one
detection per candidate label it receives, labelled with that candidate
string verbatim — exactly the labelling contract of the huggingface
`zero-shot-object-detection` pipeline, whose result `label` field is one of
the `candidate_labels` passed in. -/
def echoDetector : Image → List String → ℚ → List RawDetection :=
  fun _ ls _ => ls.map (fun l =>
    { score := 9 / 10, label := l, box := { xmin := 0, ymin := 0, xmax := 1, ymax := 1 } })

/-- The manual box of the spec's custom-bbox scenario. -/
def box0 : BoundingBox := { xmin := 10, ymin := 10, xmax := 50, ymax := 50 }

/-- A concrete one-element detection list, mask still absent. -/
def drs0 : List DetectionResult :=
  [{ score := 1, label := "custom", box := box0, mask := none }]

/-- A raw mask tensor (1 box, 1 channel, 2 by 2) that reduces to a mask
with zero foreground pixels. -/
def t0 : Tensor4 := { d0 := 1, d1 := 1, d2 := 2, d3 := 2, val := fun _ _ _ _ => 0 }

/-- A raw mask tensor (1 box, 1 channel, 2 by 2) whose reduction has
exactly one foreground pixel, at row 0 column 0. -/
def t1 : Tensor4 :=
  { d0 := 1, d1 := 1, d2 := 2, d3 := 2
    val := fun _ _ y x => if y = 0 ∧ x = 0 then 1 else 0 }

/-- Behaviour of `cv2.findContours` on a mask with zero foreground pixels:
no contours.  (This instantiation is only ever applied to such masks.) -/
def fcEmpty : Mask → List Polygon := fun _ => []

/-- Behaviour of `cv2.findContours` on a mask whose only foreground pixel
is (0, 0): a single one-point contour `[[0, 0]]`.  (Applied only to such a
mask.) -/
def fcPixel : Mask → List Polygon := fun _ => [[(0, 0)]]

/-- `cv2.contourArea` of a degenerate one-point contour is 0. -/
def area0 : Polygon → ℚ := fun _ => 0

/-- A placeholder rasterizer for runs in which `fillPoly` is never
reached. -/
def fillId : Mask → Polygon → Mask := fun m _ => m

/-- Behaviour of `cv2.fillPoly(color=(255,))` restricted to what the
concrete runs below exercise: every vertex pixel of the polygon is painted
255 (cv2 paints the whole polygon region, vertices included; for the
one-point polygons used here the region is exactly the vertex). -/
def fillVertex : Mask → Polygon → Mask := fun m p =>
  { h := m.h, w := m.w
    val := fun y x => if ((x : ℤ), (y : ℤ)) ∈ p then 255 else m.val y x }

/-- A concrete SAM backend whose resized processing size (3 by 3) differs
from the unresized one, whose model emits one single-channel mask stack per
input box, and whose post-processing remaps each batch item onto the
requested original size — the documented processor/model contracts. -/
def B0 : SegBackend :=
  { preprocess := fun img _ doResize =>
      if doResize then { h := 3, w := 3, val := fun _ _ => 0 }
      else { h := img.h, w := img.w, val := fun _ _ => 0 }
    model := fun _ bxs =>
      { d0 := (bxs.headD []).length, d1 := 1, d2 := 3, d3 := 3
        val := fun _ _ _ _ => 1 }
    postProcessMasks := fun raw oss _ =>
      oss.map (fun os =>
        { d0 := raw.d0, d1 := raw.d1, d2 := os.1, d3 := os.2
          val := fun b c y x => raw.val b c y x }) }

/-- A concrete caller heap: every cell holds the one-detection list. -/
def heap0 : ℕ → List DetectionResult := fun _ => drs0

/-- A concrete cv2 instance for the annotation run (the drawing primitives
return their buffer unchanged; only the buffer discipline matters). -/
def cv0 : Cv2 :=
  { cvtColorRGB2BGR := fun i => i
    cvtColorBGR2RGB := fun i => i
    rectangle := fun i _ _ _ => i
    putText := fun i _ _ _ => i
    findContours := fun _ => []
    drawContours := fun i _ _ => i
    fmtFloat := fun _ => "1.00" }

/-- A concrete random color stream. -/
def colors0 : ℕ → List ℕ := fun _ => [7, 7, 7]

/-- A concrete image heap for the annotation run. -/
def imgHeap0 : ℕ → Image := fun _ => img0

/-! Theorems. -/

theorem foldl_append_singleton {α β : Type} (f : β → α) (rs : List β)
    (l0 : List α) :
    rs.foldl (fun acc r => acc ++ [f r]) l0 = l0 ++ rs.map f := by
  induction rs generalizing l0 with
  | nil => simp
  | cons r rs ih => simp [ih]

theorem get_boxes_eq (results : List DetectionResult) :
    get_boxes results = [results.map (fun r => r.box.xyxy)] := by
  have h := foldl_append_singleton
    (fun r : DetectionResult => r.box.xyxy) results []
  show [results.foldl (fun acc r => acc ++ [r.box.xyxy]) []] = _
  rw [h, List.nil_append]

/-- C7: for every list of DetectionResult, get_boxes returns a
single-element outer sequence wrapping the list of each detection's 4-tuple
[xmin, ymin, xmax, ymax], one per detection, in exactly the order of the
input list. -/
theorem get_boxes_single_batch_ordered (results : List DetectionResult) :
    get_boxes results =
      [results.map (fun r =>
        [r.box.xmin, r.box.ymin, r.box.xmax, r.box.ymax])] := by
  rw [get_boxes_eq]
  simp [BoundingBox.xyxy]

/-- C4: mask reduction produces one mask per box in box order; each pixel
of mask i is the per-pixel mean over the channel values of box i,
thresholded strictly at 0, as an 8-bit 0/1 array of the tensor's spatial
dimensions. -/
theorem reduce_masks_mean_threshold (t : Tensor4) (b y x : ℕ)
    (hb : b < (reduceMasks t).length) :
    (reduceMasks t).length = t.d0 ∧
    ((reduceMasks t).get ⟨b, hb⟩).h = t.d2 ∧
    ((reduceMasks t).get ⟨b, hb⟩).w = t.d3 ∧
    ((reduceMasks t).get ⟨b, hb⟩).val y x =
      (if (((List.range t.d1).map (fun c => t.val b c y x)).sum / (t.d1 : ℚ)) > 0
       then 1 else 0) := by
  refine ⟨?_, ?_, ?_, ?_⟩ <;>
    simp [reduceMasks, Tensor4.permute0231, Tensor4.meanLast,
      Tensor3.gtZeroUint8, NTensor3.toMaskList, List.get_eq_getElem]

/-- Closed instance of the mask-reduction theorem on the concrete tensor
`t1`: one box, and its single foreground pixel reduces to value 1. -/
theorem reduce_masks_mean_threshold_witness :
    0 < (reduceMasks t1).length ∧
    ((reduceMasks t1).get ⟨0, by decide⟩).val 0 0 = 1 := by
  have h := reduce_masks_mean_threshold t1 0 0 0 (by decide)
  refine ⟨by decide, ?_⟩
  rw [h.2.2.2]
  norm_num [t1]

/-- C1 fails as stated: `detect` suffixes "dog" to "dog." for the grounding
prompt, the external pipeline labels its detection with that candidate
string, and `DetectionResult.from_dict` keeps it verbatim — the returned
label "dog." is not character-identical to any original label. -/
theorem detect_period_retained_cex :
    (detect echoDetector img0 ["dog"] (1 / 10)).map
        (fun r => r.label) = ["dog."] ∧
    ("dog." : String) ∉ (["dog"] : List String) := by
  constructor
  · rfl
  · decide

/-- C1 amended: provided the external detector labels every detection with
one of the candidate strings it was given (the zero-shot pipeline's
contract), every label returned by `detect` is the caller's original label
with a trailing period appended when the original did not already end in
one — the injected period is retained, not stripped. -/
theorem detect_label_suffix_roundtrip
    (object_detector : Image → List String → ℚ → List RawDetection)
    (image : Image) (labels : List String) (threshold : ℚ)
    (hdet : ∀ img ls th, ∀ r ∈ object_detector img ls th, r.label ∈ ls) :
    ∀ r ∈ detect object_detector image labels threshold,
      ∃ l ∈ labels, r.label = (if endsWithDot l then l else l ++ ".") := by
  intro r hr
  simp only [detect, List.mem_map] at hr
  obtain ⟨raw, hraw, hr⟩ := hr
  have hlab := hdet _ _ _ raw hraw
  simp only [List.mem_map] at hlab
  obtain ⟨l, hl, hlab⟩ := hlab
  exact ⟨l, hl, by rw [← hr]; exact hlab.symm⟩

/-- Closed instance of the amended C1 theorem: the echo detector satisfies
the candidate-label contract, and the label returned for "dog" is "dog."
(the suffixed form). -/
theorem detect_label_suffix_roundtrip_witness :
    (∀ img ls th, ∀ r ∈ echoDetector img ls th, r.label ∈ ls) ∧
    (∃ l ∈ (["dog"] : List String),
      ("dog." : String) = (if endsWithDot l then l else l ++ ".")) := by
  have hdet : ∀ img ls th, ∀ r ∈ echoDetector img ls th, r.label ∈ ls := by
    intro img ls th r hr
    simp only [echoDetector, List.mem_map] at hr
    obtain ⟨l, hl, hr⟩ := hr
    rw [← hr]
    exact hl
  refine ⟨hdet, ?_⟩
  have h := detect_label_suffix_roundtrip echoDetector img0 ["dog"] (1 / 10)
    hdet ⟨9 / 10, "dog.", ⟨0, 0, 1, 1⟩, none⟩ (List.mem_singleton.mpr rfl)
  exact h

theorem refinePass_none_of_mem (findContours : Mask → List Polygon)
    (contourArea : Polygon → ℚ) (fillPoly : Mask → Polygon → Mask)
    (ms : List Mask) (m : Mask) (hm : m ∈ ms)
    (hfc : findContours m = []) :
    refinePass findContours contourArea fillPoly ms = none := by
  induction ms with
  | nil => cases hm
  | cons a as ih =>
    cases hm with
    | head => simp [refinePass, mask_to_polygon, hfc]
    | tail _ h =>
      cases hma : mask_to_polygon findContours contourArea a with
      | none => simp [refinePass, hma]
      | some p => simp [refinePass, hma, ih h]

/-- C2 fails as stated: on a reduced mask with zero foreground pixels
(`cv2.findContours` finds no contours there), the `max()` call inside
`mask_to_polygon` raises `ValueError` on the empty sequence, so
`refine_masks` aborts with an unhandled error (`none`) instead of
recovering with an `EmptyMask` condition, and the detection receives no
mask at all. -/
theorem refine_empty_mask_raises_cex :
    (∀ m ∈ reduceMasks t0, m.foreground = 0) ∧
    refine_masks fcEmpty area0 fillId t0 true = none := by
  constructor
  · intro m hm
    simp only [reduceMasks, Tensor4.permute0231, Tensor4.meanLast,
      Tensor3.gtZeroUint8, NTensor3.toMaskList, t0, List.range_succ,
      List.range_zero, List.nil_append, List.map_cons, List.map_nil,
      List.mem_singleton] at hm
    subst hm
    norm_num [Mask.foreground, Mask.tolist, List.range_succ]
  · rfl

/-- C2 amended: when polygon refinement is requested and any reduced mask
has no contours (in particular a mask with zero foreground pixels),
`refine_masks` propagates the `ValueError` from `max()` on the empty
contour sequence: the whole batch aborts and no detection receives a
refined mask; there is no `EmptyMask` recovery in the code. -/
theorem refine_masks_empty_mask_aborts_batch
    (findContours : Mask → List Polygon) (contourArea : Polygon → ℚ)
    (fillPoly : Mask → Polygon → Mask) (t : Tensor4) (m : Mask)
    (hm : m ∈ reduceMasks t) (hfc : findContours m = []) :
    refine_masks findContours contourArea fillPoly t true = none := by
  unfold refine_masks
  simp only [if_true]
  exact refinePass_none_of_mem findContours contourArea fillPoly
    (reduceMasks t) m hm hfc

/-- Closed instance of the amended C2 theorem on the all-zero tensor. -/
theorem refine_masks_empty_mask_aborts_batch_witness :
    refine_masks fcEmpty area0 fillId t0 true = none := by
  exact refine_masks_empty_mask_aborts_batch fcEmpty area0 fillId t0 _
    (List.mem_singleton.mpr rfl) rfl

/-- C3 fails as stated: polygon refinement rasterizes with
`cv2.fillPoly(color=(255,))`, so after refinement the persisted
`mask.tolist()` holds the value 255, which is neither 0 nor 1.  The run:
the tensor `t1` reduces to a mask whose single foreground pixel is (0, 0),
cv2 reports the one-point contour [[0, 0]] there, and the fill paints that
pixel 255; the serialized detection carries [[255, 0], [0, 0]]. -/
theorem persisted_mask_values_cex :
    ((refine_masks fcPixel area0 fillVertex t1 true).map
        (fun ms => (detectionsDict (assignMasks drs0 ms)).map
          (fun j => j.mask))) = some [some [[255, 0], [0, 0]]] ∧
    ¬ ((255 : ℕ) = 0 ∨ (255 : ℕ) = 1) := by
  refine ⟨rfl, by decide⟩

theorem refinePass_elems (findContours : Mask → List Polygon)
    (contourArea : Polygon → ℚ) (fillPoly : Mask → Polygon → Mask)
    (ms ms2 : List Mask)
    (h : refinePass findContours contourArea fillPoly ms = some ms2) :
    ∀ m2 ∈ ms2, ∃ p sh, m2 = polygon_to_mask fillPoly p sh := by
  induction ms generalizing ms2 with
  | nil =>
    simp only [refinePass, Option.some.injEq] at h
    subst h
    intro m2 hm2
    cases hm2
  | cons a as ih =>
    simp only [refinePass] at h
    cases hma : mask_to_polygon findContours contourArea a with
    | none => rw [hma] at h; cases h
    | some p =>
      rw [hma] at h
      cases hrec : refinePass findContours contourArea fillPoly as with
      | none => rw [hrec] at h; cases h
      | some rest =>
        rw [hrec] at h
        simp only [Option.map_some', Option.some.injEq] at h
        subst h
        intro m2 hm2
        cases hm2 with
        | head => exact ⟨p, (a.h, a.w), rfl⟩
        | tail _ htl => exact ih rest hrec m2 htl

theorem reduceMasks_values (t : Tensor4) :
    ∀ m ∈ reduceMasks t, ∀ row ∈ m.tolist, ∀ v ∈ row, v = 0 ∨ v = 1 := by
  intro m hm row hrow v hv
  simp only [reduceMasks, NTensor3.toMaskList, List.mem_map] at hm
  obtain ⟨b, _, hm⟩ := hm
  subst hm
  simp only [Mask.tolist, List.mem_map] at hrow
  obtain ⟨y, _, hrow⟩ := hrow
  subst hrow
  simp only [List.mem_map] at hv
  obtain ⟨x, _, hv⟩ := hv
  subst hv
  simp only [Tensor3.gtZeroUint8]
  split
  · right; rfl
  · left; rfl

theorem polygon_to_mask_values (fillPoly : Mask → Polygon → Mask)
    (hfill : FillValueOk fillPoly) (p : Polygon) (sh : ℕ × ℕ) :
    ∀ row ∈ (polygon_to_mask fillPoly p sh).tolist, ∀ v ∈ row,
      v = 0 ∨ v = 255 := by
  intro row hrow v hv
  simp only [Mask.tolist, List.mem_map] at hrow
  obtain ⟨y, _, hrow⟩ := hrow
  subst hrow
  simp only [List.mem_map] at hv
  obtain ⟨x, _, hv⟩ := hv
  subst hv
  rcases hfill (zerosMask sh) p y x with hz | hz
  · left
    simpa [polygon_to_mask, zerosMask] using hz
  · right
    simpa [polygon_to_mask] using hz

theorem tolist_length (m : Mask) : (m.tolist).length = m.h := by
  simp [Mask.tolist]

theorem tolist_row_length (m : Mask) :
    ∀ row ∈ m.tolist, row.length = m.w := by
  intro row hrow
  simp only [Mask.tolist, List.mem_map] at hrow
  obtain ⟨y, _, hrow⟩ := hrow
  subst hrow
  simp

theorem reduceMasks_length (t : Tensor4) : (reduceMasks t).length = t.d0 := by
  simp [reduceMasks, Tensor4.permute0231, Tensor4.meanLast,
    Tensor3.gtZeroUint8, NTensor3.toMaskList]

theorem reduceMasks_shape (t : Tensor4) :
    ∀ m ∈ reduceMasks t, m.h = t.d2 ∧ m.w = t.d3 := by
  intro m hm
  simp only [reduceMasks, Tensor4.permute0231, Tensor4.meanLast,
    Tensor3.gtZeroUint8, NTensor3.toMaskList, List.mem_map] at hm
  obtain ⟨b, _, hm⟩ := hm
  subst hm
  exact ⟨rfl, rfl⟩

theorem refinePass_shapes (findContours : Mask → List Polygon)
    (contourArea : Polygon → ℚ) (fillPoly : Mask → Polygon → Mask)
    (h4 : FillShapeOk fillPoly) (ms ms2 : List Mask)
    (h : refinePass findContours contourArea fillPoly ms = some ms2) :
    List.Forall₂ (fun a b => b.h = a.h ∧ b.w = a.w) ms ms2 := by
  induction ms generalizing ms2 with
  | nil =>
    simp only [refinePass, Option.some.injEq] at h
    subst h
    exact List.Forall₂.nil
  | cons a as ih =>
    simp only [refinePass] at h
    cases hma : mask_to_polygon findContours contourArea a with
    | none => rw [hma] at h; cases h
    | some p =>
      rw [hma] at h
      cases hrec : refinePass findContours contourArea fillPoly as with
      | none => rw [hrec] at h; cases h
      | some rest =>
        rw [hrec] at h
        simp only [Option.map_some', Option.some.injEq] at h
        subst h
        refine List.Forall₂.cons ?_ (ih rest hrec)
        exact ⟨(h4 (zerosMask (a.h, a.w)) p).1, (h4 (zerosMask (a.h, a.w)) p).2⟩

theorem refine_masks_shapes (findContours : Mask → List Polygon)
    (contourArea : Polygon → ℚ) (fillPoly : Mask → Polygon → Mask)
    (h4 : FillShapeOk fillPoly) (t : Tensor4) (pr : Bool) (ms : List Mask)
    (h : refine_masks findContours contourArea fillPoly t pr = some ms) :
    ms.length = t.d0 ∧ ∀ m ∈ ms, m.h = t.d2 ∧ m.w = t.d3 := by
  unfold refine_masks at h
  cases pr with
  | false =>
    simp only [Bool.false_eq_true, if_false, Option.some.injEq] at h
    subst h
    exact ⟨reduceMasks_length t, reduceMasks_shape t⟩
  | true =>
    simp only [if_true] at h
    have hf := refinePass_shapes findContours contourArea fillPoly h4
      (reduceMasks t) ms h
    constructor
    · rw [← hf.length_eq, reduceMasks_length]
    · intro m hm
      obtain ⟨⟨i, hi⟩, rfl⟩ := List.mem_iff_get.mp hm
      have hidx := (List.forall₂_iff_get.mp hf).2 i
        (by rw [hf.length_eq]; exact hi) hi
      have hsrc := reduceMasks_shape t ((reduceMasks t).get
        ⟨i, by rw [hf.length_eq]; exact hi⟩) (List.get_mem _ _ _)
      exact ⟨hidx.1.trans hsrc.1, hidx.2.trans hsrc.2⟩

theorem assignMasks_length (ds : List DetectionResult) (ms : List Mask) :
    (assignMasks ds ms).length = ds.length := by
  induction ds generalizing ms with
  | nil => simp [assignMasks]
  | cons d ds ih =>
    cases ms with
    | nil => simp [assignMasks]
    | cons m ms => simp [assignMasks, ih]

theorem assignMasks_fields (ds : List DetectionResult) (ms : List Mask) :
    List.Forall₂ (fun dIn dOut : DetectionResult =>
      dOut.label = dIn.label ∧ dOut.score = dIn.score ∧ dOut.box = dIn.box)
      ds (assignMasks ds ms) := by
  induction ds generalizing ms with
  | nil =>
    simp only [assignMasks]
    exact List.Forall₂.nil
  | cons d ds ih =>
    cases ms with
    | nil =>
      simp only [assignMasks]
      exact List.forall₂_same.mpr (fun x _ => ⟨rfl, rfl, rfl⟩)
    | cons m ms =>
      simp only [assignMasks]
      exact List.Forall₂.cons ⟨rfl, rfl, rfl⟩ (ih ms)

theorem assignMasks_mask_mem (ds : List DetectionResult) (ms : List Mask)
    (hlen : ms.length = ds.length) :
    ∀ r ∈ assignMasks ds ms, ∃ m ∈ ms, r.mask = some m := by
  induction ds generalizing ms with
  | nil =>
    intro r hr
    simp [assignMasks] at hr
  | cons d ds ih =>
    cases ms with
    | nil => simp at hlen
    | cons m ms =>
      intro r hr
      simp only [assignMasks, List.mem_cons] at hr
      cases hr with
      | inl h => exact ⟨m, List.mem_cons_self m ms, by rw [h]⟩
      | inr h =>
        obtain ⟨m2, hm2, hmask⟩ := ih ms (by simpa using hlen) r h
        exact ⟨m2, List.mem_cons_of_mem m hm2, hmask⟩

theorem segment_some_elim (B : SegBackend)
    (findContours : Mask → List Polygon) (contourArea : Polygon → ℚ)
    (fillPoly : Mask → Polygon → Mask) (image : Image)
    (drs : List DetectionResult) (pr : Bool) (out : List DetectionResult)
    (hs : segment B findContours contourArea fillPoly image drs pr = some out) :
    ∃ t rest ms,
      B.postProcessMasks
          (B.model (B.preprocess image (get_boxes drs) true) (get_boxes drs))
          [((B.preprocess image (get_boxes drs) false).h,
            (B.preprocess image (get_boxes drs) false).w)]
          [((B.preprocess image (get_boxes drs) true).h,
            (B.preprocess image (get_boxes drs) true).w)] = t :: rest ∧
      refine_masks findContours contourArea fillPoly t pr = some ms ∧
      out = assignMasks drs ms := by
  simp only [segment] at hs
  cases hpost : B.postProcessMasks
      (B.model (B.preprocess image (get_boxes drs) true) (get_boxes drs))
      [((B.preprocess image (get_boxes drs) false).h,
        (B.preprocess image (get_boxes drs) false).w)]
      [((B.preprocess image (get_boxes drs) true).h,
        (B.preprocess image (get_boxes drs) true).w)] with
  | nil => rw [hpost] at hs; exact Option.noConfusion hs
  | cons t rest =>
    rw [hpost] at hs
    have hs2 : (match refine_masks findContours contourArea fillPoly t pr with
      | none => none
      | some masks => some (assignMasks drs masks)) = some out := hs
    cases href : refine_masks findContours contourArea fillPoly t pr with
    | none => rw [href] at hs2; exact Option.noConfusion hs2
    | some ms =>
      rw [href] at hs2
      injection hs2 with hs2
      exact ⟨t, rest, ms, rfl, href, hs2.symm⟩

theorem segment_fields (B : SegBackend)
    (findContours : Mask → List Polygon) (contourArea : Polygon → ℚ)
    (fillPoly : Mask → Polygon → Mask) (image : Image)
    (drs : List DetectionResult) (pr : Bool) (out : List DetectionResult)
    (hs : segment B findContours contourArea fillPoly image drs pr = some out) :
    out.length = drs.length ∧
    List.Forall₂ (fun dIn dOut : DetectionResult =>
      dOut.label = dIn.label ∧ dOut.score = dIn.score ∧ dOut.box = dIn.box)
      drs out := by
  obtain ⟨t, rest, ms, hpost, href, rfl⟩ :=
    segment_some_elim B findContours contourArea fillPoly image drs pr out hs
  exact ⟨assignMasks_length drs ms, assignMasks_fields drs ms⟩

theorem segment_mask_shapes (B : SegBackend)
    (findContours : Mask → List Polygon) (contourArea : Polygon → ℚ)
    (fillPoly : Mask → Polygon → Mask)
    (h1 : B.PostShapeOk) (h2 : B.PostCountOk) (h3 : B.ModelCountOk)
    (h4 : FillShapeOk fillPoly) (image : Image)
    (drs : List DetectionResult) (pr : Bool) (out : List DetectionResult)
    (hs : segment B findContours contourArea fillPoly image drs pr = some out) :
    ∀ r ∈ out, ∃ m, r.mask = some m ∧
      m.h = (B.preprocess image (get_boxes drs) false).h ∧
      m.w = (B.preprocess image (get_boxes drs) false).w := by
  obtain ⟨t, rest, ms, hpost, href, rfl⟩ :=
    segment_some_elim B findContours contourArea fillPoly image drs pr out hs
  have ht : t ∈ B.postProcessMasks
      (B.model (B.preprocess image (get_boxes drs) true) (get_boxes drs))
      [((B.preprocess image (get_boxes drs) false).h,
        (B.preprocess image (get_boxes drs) false).w)]
      [((B.preprocess image (get_boxes drs) true).h,
        (B.preprocess image (get_boxes drs) true).w)] := by
    rw [hpost]
    exact List.mem_cons_self t rest
  have hshape := h1 _ _ _ t ht
  have hcount := h2 _ _ _ t ht
  have hmodel := h3 (B.preprocess image (get_boxes drs) true) (get_boxes drs)
  have hinner : ((get_boxes drs).headD []).length = drs.length := by
    rw [get_boxes_eq]
    simp
  have hms := refine_masks_shapes findContours contourArea fillPoly h4
    t pr ms href
  have hmslen : ms.length = drs.length := by
    rw [hms.1, hcount, hmodel, hinner]
  intro r hr
  obtain ⟨m, hm, hmask⟩ := assignMasks_mask_mem drs ms hmslen r hr
  have hsh := hms.2 m hm
  exact ⟨m, hmask, by rw [hsh.1]; exact hshape.1,
    by rw [hsh.2]; exact hshape.2⟩

theorem B0_postShapeOk : B0.PostShapeOk := by
  intro raw os rs t ht
  simp only [B0, List.map_cons, List.map_nil, List.mem_singleton] at ht
  subst ht
  exact ⟨rfl, rfl⟩

theorem B0_postCountOk : B0.PostCountOk := by
  intro raw oss rss t ht
  simp only [B0, List.mem_map] at ht
  obtain ⟨os, _, ht⟩ := ht
  subst ht
  rfl

theorem B0_modelCountOk : B0.ModelCountOk := by
  intro pv bxs
  rfl

theorem B0_noResizeOk : B0.NoResizeOk := by
  intro img bxs
  exact ⟨rfl, rfl⟩

theorem fillId_shapeOk : FillShapeOk fillId :=
  fun _ _ => ⟨rfl, rfl⟩

theorem forall2_fields_label_map (l1 l2 : List DetectionResult)
    (h : List.Forall₂ (fun dIn dOut : DetectionResult =>
      dOut.label = dIn.label ∧ dOut.score = dIn.score ∧ dOut.box = dIn.box)
      l1 l2) :
    l2.map (fun r => r.label) = l1.map (fun r => r.label) := by
  induction h with
  | nil => rfl
  | cons hab htail ih =>
    simp only [List.map_cons, ih]
    rw [hab.1]

theorem fillVertex_shapeOk : FillShapeOk fillVertex :=
  fun _ _ => ⟨rfl, rfl⟩

theorem fillVertex_valueOk : FillValueOk fillVertex := by
  intro m p y x
  simp only [fillVertex]
  split
  · right; rfl
  · left; rfl

theorem refine_masks_values (findContours : Mask → List Polygon)
    (contourArea : Polygon → ℚ) (fillPoly : Mask → Polygon → Mask)
    (hfill : FillValueOk fillPoly) (t : Tensor4) (pr : Bool) (ms : List Mask)
    (h : refine_masks findContours contourArea fillPoly t pr = some ms) :
    ∀ m ∈ ms,
      (pr = false → ∀ row ∈ m.tolist, ∀ v ∈ row, v = 0 ∨ v = 1) ∧
      (pr = true → ∀ row ∈ m.tolist, ∀ v ∈ row, v = 0 ∨ v = 255) := by
  unfold refine_masks at h
  cases pr with
  | false =>
    simp only [Bool.false_eq_true, if_false, Option.some.injEq] at h
    subst h
    intro m hm
    exact ⟨fun _ => reduceMasks_values t m hm, fun hc => Bool.noConfusion hc⟩
  | true =>
    simp only [if_true] at h
    intro m hm
    obtain ⟨p, sh, hm2⟩ := refinePass_elems findContours contourArea fillPoly
      (reduceMasks t) ms h m hm
    subst hm2
    exact ⟨fun hc => Bool.noConfusion hc,
      fun _ => polygon_to_mask_values fillPoly hfill p sh⟩

theorem segment_masks_values (B : SegBackend)
    (findContours : Mask → List Polygon) (contourArea : Polygon → ℚ)
    (fillPoly : Mask → Polygon → Mask)
    (h1 : B.PostShapeOk) (h2 : B.PostCountOk) (h3 : B.ModelCountOk)
    (h4 : FillShapeOk fillPoly) (hfill : FillValueOk fillPoly)
    (image : Image) (drs : List DetectionResult) (pr : Bool)
    (out : List DetectionResult)
    (hs : segment B findContours contourArea fillPoly image drs pr = some out) :
    ∀ r ∈ out, ∃ m, r.mask = some m ∧
      m.h = (B.preprocess image (get_boxes drs) false).h ∧
      m.w = (B.preprocess image (get_boxes drs) false).w ∧
      (pr = false → ∀ row ∈ m.tolist, ∀ v ∈ row, v = 0 ∨ v = 1) ∧
      (pr = true → ∀ row ∈ m.tolist, ∀ v ∈ row, v = 0 ∨ v = 255) := by
  obtain ⟨t, rest, ms, hpost, href, rfl⟩ :=
    segment_some_elim B findContours contourArea fillPoly image drs pr out hs
  have ht : t ∈ B.postProcessMasks
      (B.model (B.preprocess image (get_boxes drs) true) (get_boxes drs))
      [((B.preprocess image (get_boxes drs) false).h,
        (B.preprocess image (get_boxes drs) false).w)]
      [((B.preprocess image (get_boxes drs) true).h,
        (B.preprocess image (get_boxes drs) true).w)] := by
    rw [hpost]
    exact List.mem_cons_self t rest
  have hshape := h1 _ _ _ t ht
  have hcount := h2 _ _ _ t ht
  have hmodel := h3 (B.preprocess image (get_boxes drs) true) (get_boxes drs)
  have hinner : ((get_boxes drs).headD []).length = drs.length := by
    rw [get_boxes_eq]
    simp
  have hms := refine_masks_shapes findContours contourArea fillPoly h4
    t pr ms href
  have hmslen : ms.length = drs.length := by
    rw [hms.1, hcount, hmodel, hinner]
  intro r hr
  obtain ⟨m, hm, hmask⟩ := assignMasks_mask_mem drs ms hmslen r hr
  have hsh := hms.2 m hm
  have hval := refine_masks_values findContours contourArea fillPoly hfill
    t pr ms href m hm
  exact ⟨m, hmask, by rw [hsh.1]; exact hshape.1,
    by rw [hsh.2]; exact hshape.2, hval.1, hval.2⟩

/-- C3 amended: for any completed segmentation run (under the documented
external contracts), every persisted JSON element's mask is a nested array
matching the original image's pixel dimensions, whose entries are the
integers 0/1 when polygon refinement did not run but 0/255 when refinement
ran (`polygon_to_mask` fills with color 255); each element carries label,
score and box verbatim, and its mask is null exactly when the detection
has no mask (segmentation did not run for it). -/
theorem persisted_mask_values (B : SegBackend)
    (findContours : Mask → List Polygon) (contourArea : Polygon → ℚ)
    (fillPoly : Mask → Polygon → Mask)
    (h1 : B.PostShapeOk) (h2 : B.PostCountOk) (h3 : B.ModelCountOk)
    (h4 : FillShapeOk fillPoly) (h5 : B.NoResizeOk)
    (hfill : FillValueOk fillPoly) (image : Image)
    (drs : List DetectionResult) (pr : Bool) (out : List DetectionResult)
    (hs : segment B findContours contourArea fillPoly image drs pr = some out) :
    (∀ j ∈ detectionsDict out, ∃ grid, j.mask = some grid ∧
      grid.length = image.h ∧ (∀ row ∈ grid, row.length = image.w) ∧
      (pr = false → ∀ row ∈ grid, ∀ v ∈ row, v = 0 ∨ v = 1) ∧
      (pr = true → ∀ row ∈ grid, ∀ v ∈ row, v = 0 ∨ v = 255)) ∧
    (∀ results : List DetectionResult, ∀ j ∈ detectionsDict results,
      ∃ d ∈ results, j.label = d.label ∧ j.score = d.score ∧
        j.box = d.box ∧ j.mask = d.mask.map Mask.tolist) := by
  constructor
  · intro j hj
    simp only [detectionsDict, List.mem_map] at hj
    obtain ⟨d, hd, hj⟩ := hj
    subst hj
    obtain ⟨m, hmask, hh, hw, hv01, hv255⟩ := segment_masks_values B
      findContours contourArea fillPoly h1 h2 h3 h4 hfill image drs pr out
      hs d hd
    refine ⟨m.tolist, by simp [hmask], ?_, ?_, hv01, hv255⟩
    · rw [tolist_length, hh]
      exact (h5 image (get_boxes drs)).1
    · intro row hrow
      rw [tolist_row_length m row hrow, hw]
      exact (h5 image (get_boxes drs)).2
  · intro results j hj
    simp only [detectionsDict, List.mem_map] at hj
    obtain ⟨d, hd, hj⟩ := hj
    subst hj
    exact ⟨d, hd, rfl, rfl, rfl, rfl⟩

/-- Closed instance of the amended C3 theorem on a refined run: the
persisted grid has the image's height (2 rows) and carries the 0/255
values [[255, 0], [0, 0]]. -/
theorem persisted_mask_values_witness :
    (segment B0 fcPixel area0 fillVertex img0 drs0 true).map
        (fun out => (detectionsDict out).map
          (fun j => (j.mask.map List.length, j.mask))) =
      some [(some img0.h, some [[255, 0], [0, 0]])] := by
  have hseg : segment B0 fcPixel area0 fillVertex img0 drs0 true =
      some (assignMasks drs0 [polygon_to_mask fillVertex [(0, 0)] (2, 2)]) :=
    rfl
  have h := (persisted_mask_values B0 fcPixel area0 fillVertex
    B0_postShapeOk B0_postCountOk B0_modelCountOk fillVertex_shapeOk
    B0_noResizeOk fillVertex_valueOk img0 drs0 true _ hseg).1
  obtain ⟨grid, hg, hglen, hrows, h01, h255⟩ :=
    h _ (List.mem_singleton.mpr rfl)
  have hg2 : some ([[255, 0], [0, 0]] : List (List ℕ)) = some grid := hg
  injection hg2 with hg3
  rw [hseg, Option.map_some']
  show some [(some ([[255, 0], [0, 0]] : List (List ℕ)).length,
      some ([[255, 0], [0, 0]] : List (List ℕ)))] =
    some [(some img0.h, some [[255, 0], [0, 0]])]
  rw [hg3, hglen]

/-- C5: segment observes original_size by preprocessing with resizing
disabled, observes reshaped_size on the tensor actually fed to the
generator, hands both to post-processing (all visible in the definition of
`segment`), and — given the post-processing and model contracts — every
mask it attaches has the original (do_resize=False) spatial size, not the
reshaped one. -/
theorem segment_masks_have_original_size (B : SegBackend)
    (findContours : Mask → List Polygon) (contourArea : Polygon → ℚ)
    (fillPoly : Mask → Polygon → Mask)
    (h1 : B.PostShapeOk) (h2 : B.PostCountOk) (h3 : B.ModelCountOk)
    (h4 : FillShapeOk fillPoly) (image : Image)
    (drs : List DetectionResult) (pr : Bool) (out : List DetectionResult)
    (hs : segment B findContours contourArea fillPoly image drs pr = some out) :
    ∀ r ∈ out, ∃ m, r.mask = some m ∧
      m.h = (B.preprocess image (get_boxes drs) false).h ∧
      m.w = (B.preprocess image (get_boxes drs) false).w :=
  segment_mask_shapes B findContours contourArea fillPoly h1 h2 h3 h4
    image drs pr out hs

/-- Closed instance of the C5 theorem on the concrete backend `B0`, whose
unresized size (2, 2) differs from its resized size (3, 3): the attached
mask still has the original (2, 2) shape. -/
theorem segment_masks_have_original_size_witness :
    ((B0.preprocess img0 (get_boxes drs0) false).h,
      (B0.preprocess img0 (get_boxes drs0) false).w) = (2, 2) ∧
    ((B0.preprocess img0 (get_boxes drs0) true).h,
      (B0.preprocess img0 (get_boxes drs0) true).w) = (3, 3) ∧
    (segment B0 fcEmpty area0 fillId img0 drs0 false).map
        (fun out => out.map (fun r => r.mask.map (fun m => (m.h, m.w)))) =
      some [some (2, 2)] := by
  refine ⟨rfl, rfl, ?_⟩
  cases hseg : segment B0 fcEmpty area0 fillId img0 drs0 false with
  | none =>
    have hsome : (segment B0 fcEmpty area0 fillId img0 drs0 false).isSome =
      true := rfl
    rw [hseg] at hsome
    exact absurd hsome (by decide)
  | some out =>
    have hmask := segment_masks_have_original_size B0 fcEmpty area0 fillId
      B0_postShapeOk B0_postCountOk B0_modelCountOk fillId_shapeOk
      img0 drs0 false out hseg
    have hlen := (segment_fields B0 fcEmpty area0 fillId img0 drs0 false
      out hseg).1
    obtain ⟨r, rfl⟩ := List.length_eq_one.mp (hlen.trans rfl)
    obtain ⟨m, hm, hh, hw⟩ := hmask r (List.mem_singleton.mpr rfl)
    simp only [Option.map_some', List.map_cons, List.map_nil, hm]
    rw [hh, hw]
    rfl

/-- C6: for every detection list of length N given to segment, a returned
list has exactly N entries in the same order with the same label, score and
box values, and — given the external contracts, including that the
unresized pixel tensor carries the image's own size — each entry holds a
mask shaped to the original image's (height, width). -/
theorem segment_preserves_detections (B : SegBackend)
    (findContours : Mask → List Polygon) (contourArea : Polygon → ℚ)
    (fillPoly : Mask → Polygon → Mask)
    (h1 : B.PostShapeOk) (h2 : B.PostCountOk) (h3 : B.ModelCountOk)
    (h4 : FillShapeOk fillPoly) (h5 : B.NoResizeOk) (image : Image)
    (drs : List DetectionResult) (pr : Bool) (out : List DetectionResult)
    (hs : segment B findContours contourArea fillPoly image drs pr = some out) :
    out.length = drs.length ∧
    (∀ i (hi : i < drs.length) (hj : i < out.length),
      (out.get ⟨i, hj⟩).label = (drs.get ⟨i, hi⟩).label ∧
      (out.get ⟨i, hj⟩).score = (drs.get ⟨i, hi⟩).score ∧
      (out.get ⟨i, hj⟩).box = (drs.get ⟨i, hi⟩).box) ∧
    (∀ r ∈ out, ∃ m, r.mask = some m ∧ m.h = image.h ∧ m.w = image.w) := by
  have hf := segment_fields B findContours contourArea fillPoly image drs
    pr out hs
  have hm := segment_mask_shapes B findContours contourArea fillPoly h1 h2
    h3 h4 image drs pr out hs
  refine ⟨hf.1, ?_, ?_⟩
  · intro i hi hj
    exact (List.forall₂_iff_get.mp hf.2).2 i hi hj
  · intro r hr
    obtain ⟨m, hmm, hh, hw⟩ := hm r hr
    exact ⟨m, hmm, hh.trans (h5 image (get_boxes drs)).1,
      hw.trans (h5 image (get_boxes drs)).2⟩

/-- Closed instance of the C6 theorem: the one-detection run returns one
entry with label "custom", score 1, the original box, and a mask shaped to
the 2 by 2 image. -/
theorem segment_preserves_detections_witness :
    (segment B0 fcEmpty area0 fillId img0 drs0 false).map
        (fun out => (out.length,
          out.map (fun r => (r.label, r.score, r.box)),
          out.map (fun r => r.mask.map (fun m => (m.h, m.w))))) =
      some (1, [("custom", (1 : ℚ), box0)], [some (2, 2)]) := by
  cases hseg : segment B0 fcEmpty area0 fillId img0 drs0 false with
  | none =>
    have hsome : (segment B0 fcEmpty area0 fillId img0 drs0 false).isSome =
      true := rfl
    rw [hseg] at hsome
    exact absurd hsome (by decide)
  | some out =>
    have h := segment_preserves_detections B0 fcEmpty area0 fillId
      B0_postShapeOk B0_postCountOk B0_modelCountOk fillId_shapeOk
      B0_noResizeOk img0 drs0 false out hseg
    obtain ⟨r, rfl⟩ := List.length_eq_one.mp (h.1.trans rfl)
    have hfield := h.2.1 0 Nat.zero_lt_one Nat.zero_lt_one
    have hl : r.label = "custom" := hfield.1
    have hsc : r.score = 1 := hfield.2.1
    have hbx : r.box = box0 := hfield.2.2
    obtain ⟨m, hm, hh, hw⟩ := h.2.2 r (List.mem_singleton.mpr rfl)
    simp only [Option.map_some', List.map_cons, List.map_nil, hm, hl, hsc,
      hbx, hh, hw]
    rfl

/-- C10: `segment` returns the caller's list object by alias: at reference
level the returned reference equals the argument reference, the referenced
cell now holds exactly `segment`'s value-level result (so the caller's list
is updated even if the return value is discarded), every other cell is
untouched, and each entry changed at most its `mask` field — label, score
and box are preserved. -/
theorem segment_aliases_and_updates_caller_list (B : SegBackend)
    (findContours : Mask → List Polygon) (contourArea : Polygon → ℚ)
    (fillPoly : Mask → Polygon → Mask) (heap : ℕ → List DetectionResult)
    (ref : ℕ) (image : Image) (pr : Bool)
    (heap2 : ℕ → List DetectionResult) (r : ℕ)
    (hs : segmentRef B findContours contourArea fillPoly heap ref image pr =
      some (heap2, r)) :
    r = ref ∧
    segment B findContours contourArea fillPoly image (heap ref) pr =
      some (heap2 ref) ∧
    (∀ q, q ≠ ref → heap2 q = heap q) ∧
    List.Forall₂ (fun dIn dOut : DetectionResult =>
      dOut.label = dIn.label ∧ dOut.score = dIn.score ∧ dOut.box = dIn.box)
      (heap ref) (heap2 ref) := by
  unfold segmentRef at hs
  cases hseg : segment B findContours contourArea fillPoly image (heap ref)
      pr with
  | none => rw [hseg] at hs; exact Option.noConfusion hs
  | some out =>
    rw [hseg] at hs
    simp only [Option.map_some', Option.some.injEq, Prod.mk.injEq] at hs
    obtain ⟨hh, hr⟩ := hs
    subst hr
    subst hh
    refine ⟨rfl, ?_, ?_, ?_⟩
    · rw [Function.update_same]
    · intro q hq
      exact Function.update_noteq hq out heap
    · rw [Function.update_same]
      exact (segment_fields B findContours contourArea fillPoly image
        (heap ref) pr out hseg).2

/-- Closed instance of the C10 theorem: the returned reference is the
argument reference 0, other cells are untouched, and the aliased cell still
carries the "custom" detection. -/
theorem segment_aliases_and_updates_caller_list_witness :
    (segmentRef B0 fcEmpty area0 fillId heap0 0 img0 false).map
        (fun p => (p.2, (p.1 1).map (fun r => r.label),
          (p.1 0).map (fun r => r.label))) =
      some (0, ["custom"], ["custom"]) := by
  cases hsr : segmentRef B0 fcEmpty area0 fillId heap0 0 img0 false with
  | none =>
    have hsome : (segmentRef B0 fcEmpty area0 fillId heap0 0 img0
      false).isSome = true := rfl
    rw [hsr] at hsome
    exact absurd hsome (by decide)
  | some p =>
    have h := segment_aliases_and_updates_caller_list B0 fcEmpty area0
      fillId heap0 0 img0 false p.1 p.2 (by rw [hsr])
    obtain ⟨hr, hseg2, hframe, hfields⟩ := h
    simp only [Option.map_some', Option.some.injEq]
    rw [hr, hframe 1 (by decide), forall2_fields_label_map _ _ hfields]
    rfl

/-- C9: `annotate` never writes the input image buffer (or any other
pre-existing buffer): all drawing lands in the fresh buffer allocated by
the opening `cvtColor`, so the caller's pixel data is unchanged and the
annotated result is returned as a new buffer. -/
theorem annotate_preserves_input_buffers (cv : Cv2) (colors : ℕ → List ℕ)
    (heap : ℕ → Image) (iid nid : ℕ)
    (detection_results : List DetectionResult) (q : ℕ) (hq : q ≠ nid) :
    (annotateRef cv colors heap iid nid detection_results).1 q = heap q := by
  unfold annotateRef
  exact Function.update_noteq hq _ heap

/-- Closed instance of the C9 theorem: with the input image in cell 0 and
the fresh working buffer in cell 1, cell 0 is unchanged. -/
theorem annotate_preserves_input_buffers_witness :
    (0 : ℕ) ≠ 1 ∧
    (annotateRef cv0 colors0 imgHeap0 0 1 drs0).1 0 = imgHeap0 0 :=
  ⟨by decide,
    annotate_preserves_input_buffers cv0 colors0 imgHeap0 0 1 drs0 0
      (by decide)⟩

end Rseg
